import Mathlib

/-!
Verification of the VidDet repository (YOLOv3-family video object detection).

This file gives a shallow embedding of the parts of the code that the
specification claims talk about, together with theorems settling each claim:

* `src/datasets/youtubebb.py`: label validation (`_validate_label`,
  `_load_label`), label padding (`_pad_to_dense`), temporal window
  construction (`_load_items`), and the `iou` helper.
* `src/models/definitions/yolo/yolo3.py`: the training/inference dual-mode
  forward pass of `YOLOV3`/`YOLOV3T`, the inference NMS tail, the
  hierarchical class masking of `YOLOOutputV3`, and the constructor
  validation of `YOLOV3T`/`YOLOV3TB`.
* `src/detect_yolo3.py`: the `detect` driver.
* `src/train_yolov3.py`: the window/dataset validation in `main`.

Real-valued tensor entries are modelled exactly by rational numbers,
fallible code by `Except`/`Option`, and NumPy arrays by lists.
-/

/-! ## `iou` — src/datasets/youtubebb.py lines 460-474

A box as used by `iou`: the first four entries of a label row
`[xmin, ymin, xmax, ymax, ...]`. -/

structure Box where
  xmin : ℚ
  ymin : ℚ
  xmax : ℚ
  ymax : ℚ

/-- `iw = np.min((bb[2], bbgt[2])) - np.max((bb[0], bbgt[0])) + 1` -/
def iouIW (bb bbgt : Box) : ℚ :=
  min bb.xmax bbgt.xmax - max bb.xmin bbgt.xmin + 1

/-- `ih = np.min((bb[3], bbgt[3])) - np.max((bb[1], bbgt[1])) + 1` -/
def iouIH (bb bbgt : Box) : ℚ :=
  min bb.ymax bbgt.ymax - max bb.ymin bbgt.ymin + 1

/-- Embedding of `iou(bb, bbgt)` from src/datasets/youtubebb.py:
`ov = 0`; if `iw > 0 and ih > 0` then
`intersect = iw * ih`,
`ua = (bb[2]-bb[0]+1)*(bb[3]-bb[1]+1) + (bbgt[2]-bbgt[0]+1)*(bbgt[3]-bbgt[1]+1) - intersect`,
`ov = intersect / ua`. -/
def iou (bb bbgt : Box) : ℚ :=
  if 0 < iouIW bb bbgt ∧ 0 < iouIH bb bbgt then
    let intersect := iouIW bb bbgt * iouIH bb bbgt
    let ua := (bb.xmax - bb.xmin + 1) * (bb.ymax - bb.ymin + 1) +
              (bbgt.xmax - bbgt.xmin + 1) * (bbgt.ymax - bbgt.ymin + 1) - intersect
    intersect / ua
  else 0

/-- A box is well formed when `xmax >= xmin` and `ymax >= ymin`. -/
def Box.WellFormed (b : Box) : Prop := b.xmin ≤ b.xmax ∧ b.ymin ≤ b.ymax

lemma iouIW_comm (a b : Box) : iouIW a b = iouIW b a := by
  simp [iouIW, min_comm, max_comm]

lemma iouIH_comm (a b : Box) : iouIH a b = iouIH b a := by
  simp [iouIH, min_comm, max_comm]

/-! ## `_pad_to_dense` — src/datasets/youtubebb.py lines 338-345 -/

/-- `x[enu, :] += row + 1`, elementwise on a row of the dense array. -/
def addRow (x row : List ℚ) : List ℚ :=
  List.zipWith (fun a b => a + (b + 1)) x row

/-- The `for enu, row in enumerate(labels)` loop of `_pad_to_dense`,
updating row `enu` of the accumulator in place. -/
def padLoop : List (List ℚ) → ℕ → List (List ℚ) → List (List ℚ)
  | [], _, x => x
  | row :: rest, enu, x => padLoop rest (enu + 1) (x.set enu (addRow (x.getD enu []) row))

/-- Embedding of `YouTubeBBDetection._pad_to_dense(labels, maxlen)`:
`x = -np.ones((maxlen, 6))`, then `x[enu, :] += row + 1` for each row. -/
def pad_to_dense (labels : List (List ℚ)) (maxlen : ℕ) : List (List ℚ) :=
  padLoop labels 0 (List.replicate maxlen (List.replicate 6 (-1)))

/-! ## `_validate_label` and `_load_label` — src/datasets/youtubebb.py lines 273-328 -/

/-- The four `assert` statements that end `_validate_label`, in source order. -/
def boxAsserts (xmin ymin xmax ymax : ℚ) : Except String (ℚ × ℚ × ℚ × ℚ) :=
  if ¬ (0 ≤ xmin ∧ xmin < 1) then .error "xmin must be in 0 inclusive to 1 exclusive"
  else if ¬ (0 ≤ ymin ∧ ymin < 1) then .error "ymin must be in 0 inclusive to 1 exclusive"
  else if ¬ (xmin < xmax ∧ xmax ≤ 1) then .error "xmax must be in xmin exclusive to 1 inclusive"
  else if ¬ (ymin < ymax ∧ ymax ≤ 1) then .error "ymax must be in ymin exclusive to 1 inclusive"
  else .ok (xmin, ymin, xmax, ymax)

/-- Embedding of `YouTubeBBDetection._validate_label`: when the box is out of
range it is first clamped (`xmin = min(max(0, xmin), 1)` and so on, with
`xmax = min(max(xmin + 1, xmax), 1)` using the already clamped `xmin`), then
the four assertions run; an `Except.error` models `AssertionError`. -/
def validate_label (xmin ymin xmax ymax : ℚ) : Except String (ℚ × ℚ × ℚ × ℚ) :=
  if ¬ (0 ≤ xmin ∧ xmin < 1) ∨ ¬ (0 ≤ ymin ∧ ymin < 1) ∨
     ¬ (xmin < xmax ∧ xmax ≤ 1) ∨ ¬ (ymin < ymax ∧ ymax ≤ 1) then
    let xmin1 := min (max 0 xmin) 1
    let ymin1 := min (max 0 ymin) 1
    boxAsserts xmin1 ymin1 (min (max (xmin1 + 1) xmax) 1) (min (max (ymin1 + 1) ymax) 1)
  else
    boxAsserts xmin ymin xmax ymax

/-- The per-object body of `_load_label` (src/datasets/youtubebb.py lines
295-302): an object marked absent or with a negative coordinate is skipped,
and an `AssertionError` raised by `_validate_label` is caught by skipping
the object (`except AssertionError: ... continue`). -/
def load_label_box (absent : Bool) (xmin ymin xmax ymax : ℚ) : Option (ℚ × ℚ × ℚ × ℚ) :=
  if absent = true ∨ xmin < 0 ∨ xmax < 0 ∨ ymin < 0 ∨ ymax < 0 then none
  else
    match validate_label xmin ymin xmax ymax with
    | .ok r => some r
    | .error _ => none

lemma boxAsserts_ok {x y X Y x' y' X' Y' : ℚ}
    (h : boxAsserts x y X Y = .ok (x', y', X', Y')) :
    x' = x ∧ y' = y ∧ X' = X ∧ Y' = Y ∧
    (0 ≤ x ∧ x < 1) ∧ (0 ≤ y ∧ y < 1) ∧ (x < X ∧ X ≤ 1) ∧ (y < Y ∧ Y ≤ 1) := by
  unfold boxAsserts at h
  split_ifs at h with h1 h2 h3 h4
  · push_neg at h1 h2 h3 h4
    simp only [Except.ok.injEq, Prod.mk.injEq] at h
    obtain ⟨hx, hy, hX, hY⟩ := h
    subst hx; subst hy; subst hX; subst hY
    exact ⟨rfl, rfl, rfl, rfl, h1, h2, h3, h4⟩

lemma boxAsserts_err_of_xmin_one {x y X Y : ℚ} (hx : x = 1) :
    ∃ msg, boxAsserts x y X Y = .error msg := by
  subst hx
  unfold boxAsserts
  rw [if_pos (by norm_num)]
  exact ⟨_, rfl⟩

lemma boxAsserts_err_of_ymin_one {x y X Y : ℚ} (hx : 0 ≤ x ∧ x < 1) (hy : y = 1) :
    ∃ msg, boxAsserts x y X Y = .error msg := by
  subst hy
  unfold boxAsserts
  rw [if_neg (by simpa using hx), if_pos (by norm_num)]
  exact ⟨_, rfl⟩

/-! ## Temporal window construction — src/datasets/youtubebb.py lines 240-264

`_load_items` builds, for each video, the sorted list `frame_ids` and for
each position `i` a window of `window_size` frame ids.  We embed the window
construction over the index list of one video: `windowBack` is the
`for back_i in range(window_size*step, step-1, -step)` loop (whose offsets
are `ws*step, (ws-1)*step, ..., step` with `ws = int(window_size / 2.0)`),
and `windowForward` the forward loop, of which only `window_size - (ws+1)`
entries are appended because of the `len(window) == window_size` break.
Natural subtraction `i - o` equals Python `max(0, i - back_i)` on ints. -/

def windowBack (ws step i : ℕ) : List ℕ :=
  (List.range ws).map (fun j => max 0 (i - (ws - j) * step))

def windowForward (ws step i n : ℕ) : List ℕ :=
  (List.range ws).map (fun j => min (n - 1) (i + (j + 1) * step))

def windowIndices (wsize step i n : ℕ) : List ℕ :=
  (windowBack (wsize / 2) step i ++ [i]) ++
    (windowForward (wsize / 2) step i n).take (wsize - (wsize / 2 + 1))

/-- The window of actual frame ids for sample `i` of a video whose sorted
frame-id list is `frames` (each entry the string `vid_id + european comma + frame_id`). -/
def windowOf (frames : List String) (wsize step i : ℕ) : List String :=
  (windowIndices wsize step i frames.length).map (fun j => frames.getD j "")

/-- Clamping of a raw (possibly out of range) temporal position into the
valid frame range `[0, n-1]`: before-first positions pad with the first
frame, after-last positions with the last. -/
def clampIdx (n : ℕ) (raw : ℤ) : ℕ := (min ((n : ℤ) - 1) (max 0 raw)).toNat

lemma windowIndices_eq_map (wsize step i n : ℕ) (hw : 1 ≤ wsize) (hi : i < n) :
    windowIndices wsize step i n =
      (List.range wsize).map
        (fun p : ℕ => clampIdx n ((i : ℤ) + ((p : ℤ) - (wsize / 2 : ℕ)) * step)) := by
  unfold windowIndices
  set w2 := wsize / 2 with hw2
  have hws : w2 + 1 ≤ wsize := by omega
  have hrws : wsize - (w2 + 1) ≤ w2 := by omega
  have hsplit : List.range wsize
      = (List.range w2 ++ [w2]) ++
        (List.range (wsize - (w2 + 1))).map (fun q => w2 + 1 + q) := by
    have h1 : wsize = (w2 + 1) + (wsize - (w2 + 1)) := by omega
    conv_lhs => rw [h1]
    rw [List.range_add, List.range_succ]
  rw [hsplit, List.map_append, List.map_append, List.map_map]
  congr 1
  · congr 1
    · rw [windowBack]
      apply List.map_congr_left
      intro j hj
      rw [List.mem_range] at hj
      dsimp only
      rw [clampIdx]
      have hc : (i : ℤ) + ((j : ℤ) - (w2 : ℕ)) * step
          = (i : ℤ) - (((w2 - j) * step : ℕ) : ℤ) := by
        have h2 : ((w2 - j : ℕ) : ℤ) = ((w2 : ℕ) : ℤ) - (j : ℤ) := by omega
        rw [Nat.cast_mul, h2]
        ring
      rw [hc]
      generalize (w2 - j) * step = o
      omega
    · simp only [List.map_cons, List.map_nil, List.cons.injEq, and_true]
      rw [clampIdx]
      have hc : (i : ℤ) + (((w2 : ℕ) : ℤ) - ((w2 : ℕ) : ℤ)) * step = (i : ℤ) := by
        ring
      rw [hc]
      omega
  · rw [windowForward, ← List.map_take, List.take_range, min_eq_left hrws]
    apply List.map_congr_left
    intro q hq
    rw [List.mem_range] at hq
    dsimp only [Function.comp]
    rw [clampIdx]
    have hc : (i : ℤ) + (((w2 + 1 + q : ℕ) : ℤ) - ((w2 : ℕ) : ℤ)) * step
        = (i : ℤ) + (((q + 1) * step : ℕ) : ℤ) := by
      push_cast
      ring
    rw [hc]
    generalize (q + 1) * step = m
    omega

/-! ## Constructor validation of `YOLOV3T` / `YOLOV3TB` —
src/models/definitions/yolo/yolo3.py lines 1025-1035 and 1427-1437

Both constructors run the same sequence of `assert` statements; each
`InitError` value names the assertion, in source order, that raises
`AssertionError`.  `k` is the temporal window size (the callers in
src/train_yolov3.py pass the integer `FLAGS.window[0]`); the string options
are modelled as `Option String` with `none` for Python `None`. -/

inductive InitError where
  | rnnPosInvalid
  | kTooSmall
  | joinPosNotLateConv3d
  | joinTypeMissingConv3d
  | kJoinTypeInvalid
  | kJoinPosInvalid
  | corrPosInvalid
  | lateRnnNeedsLateJoinPos
  | lateRnnJoinTypeInvalid
deriving DecidableEq, Repr

def yolov3t_init_checks (k : ℤ) (block_conv_type : String)
    (k_join_type k_join_pos rnn_pos corr_pos : Option String) :
    Except InitError Unit :=
  if rnn_pos ∉ ([none, some "late", some "out"] : List (Option String)) then
    .error .rnnPosInvalid
  else if (block_conv_type = "3" ∨ block_conv_type = "21") ∧ ¬ (1 < k) then
    .error .kTooSmall
  else if (block_conv_type = "3" ∨ block_conv_type = "21") ∧ k_join_pos ≠ some "late" then
    .error .joinPosNotLateConv3d
  else if (block_conv_type = "3" ∨ block_conv_type = "21") ∧ k_join_type = none then
    .error .joinTypeMissingConv3d
  else if k_join_type ∉ ([none, some "max", some "mean", some "cat"] : List (Option String)) then
    .error .kJoinTypeInvalid
  else if k_join_pos ∉ ([none, some "early", some "late"] : List (Option String)) then
    .error .kJoinPosInvalid
  else if corr_pos ∉ ([none, some "early", some "late"] : List (Option String)) then
    .error .corrPosInvalid
  else if rnn_pos = some "late" ∧ k_join_pos ≠ some "late" then
    .error .lateRnnNeedsLateJoinPos
  else if rnn_pos = some "late" ∧
      k_join_type ∉ ([none, some "max", some "mean", some "cat"] : List (Option String)) then
    .error .lateRnnJoinTypeInvalid
  else .ok ()

/-! ## Window/dataset validation in the training driver —
src/train_yolov3.py lines 688-692

`main` either raises an `AssertionError` (window over a non-vid dataset)
or yields the `(k_join_type, k_join_pos)` pair that is later handed to
the network constructor; `FLAGS.dataset` is a list of dataset names. -/

def main_window_check (window0 : ℤ) (dataset : List String)
    (k_join_type k_join_pos : Option String) :
    Except String (Option String × Option String) :=
  if 1 < window0 then
    if "vid" ∈ dataset then .ok (k_join_type, k_join_pos)
    else .error "If using window size greater than 1 you can only use the vid dataset"
  else .ok (none, none)

lemma clampIdx_mono (n : ℕ) {x y : ℤ} (h : x ≤ y) : clampIdx n x ≤ clampIdx n y := by
  rw [clampIdx, clampIdx]
  omega

lemma clampIdx_lt (n : ℕ) (hn : 1 ≤ n) (raw : ℤ) : clampIdx n raw < n := by
  rw [clampIdx]
  omega

/-- **C4** (temporal window construction in the YouTube-BB loader): for a
dataset built with `window_size > 1`, each sample `i` of a video with sorted
frame-id list `frames` gets a window of exactly `window_size` frame ids, all
drawn from the same video, ordered temporally, with the sample frame at
index `window_size / 2`; position `p` of the window holds the frame at index
`clampIdx n (i + (p - window_size / 2) * window_step)`, so positions before
the first frame pad with frame `0` and positions past the last frame pad
with frame `n - 1` (and for even `window_size` only `window_size / 2 - 1`
future positions remain, the last future frame being disregarded by the
`len(window) == window_size` break). -/
theorem claim_C4_window_construction (frames : List String) (wsize step i : ℕ)
    (hw : 1 < wsize) (hs : 1 ≤ step) (hi : i < frames.length) :
    (windowIndices wsize step i frames.length).length = wsize ∧
    (windowIndices wsize step i frames.length).getD (wsize / 2) 0 = i ∧
    (windowIndices wsize step i frames.length).Pairwise (· ≤ ·) ∧
    (∀ p, p < wsize →
      (windowIndices wsize step i frames.length).getD p 0 =
        clampIdx frames.length ((i : ℤ) + ((p : ℤ) - (wsize / 2 : ℕ)) * step)) ∧
    (windowOf frames wsize step i).length = wsize ∧
    (∀ s ∈ windowOf frames wsize step i, s ∈ frames) := by
  have hmap := windowIndices_eq_map wsize step i frames.length (by omega) hi
  have hn : 1 ≤ frames.length := by omega
  have hgetD : ∀ p, p < wsize →
      (windowIndices wsize step i frames.length).getD p 0 =
        clampIdx frames.length ((i : ℤ) + ((p : ℤ) - (wsize / 2 : ℕ)) * step) := by
    intro p hp
    rw [hmap, List.getD_eq_getElem?_getD, List.getElem?_map, List.getElem?_range hp]
    rfl
  have hlen : (windowIndices wsize step i frames.length).length = wsize := by
    rw [hmap, List.length_map, List.length_range]
  have hmem : ∀ j ∈ windowIndices wsize step i frames.length, j < frames.length := by
    rw [hmap]
    intro j hj
    rw [List.mem_map] at hj
    obtain ⟨p, _, rfl⟩ := hj
    exact clampIdx_lt _ hn _
  refine ⟨hlen, ?_, ?_, hgetD, ?_, ?_⟩
  · rw [hgetD (wsize / 2) (by omega), clampIdx]
    have hc : (i : ℤ) + (((wsize / 2 : ℕ) : ℤ) - ((wsize / 2 : ℕ) : ℤ)) * step = (i : ℤ) := by
      ring
    rw [hc]
    omega
  · rw [hmap]
    refine (List.pairwise_lt_range wsize).map _ ?_
    intro a b hab
    apply clampIdx_mono
    have h1 : ((a : ℤ) - (wsize / 2 : ℕ)) * step ≤ ((b : ℤ) - (wsize / 2 : ℕ)) * step := by
      apply mul_le_mul_of_nonneg_right _ (by positivity)
      have : (a : ℤ) ≤ (b : ℤ) := by exact_mod_cast hab.le
      omega
    omega
  · rw [windowOf, List.length_map, hlen]
  · intro s hs
    rw [windowOf, List.mem_map] at hs
    obtain ⟨j, hj, rfl⟩ := hs
    have hjlt := hmem j hj
    rw [List.getD_eq_getElem?_getD, List.getElem?_eq_getElem hjlt]
    exact List.getElem_mem hjlt

/-- A closed-form instance of C4: window of size 4, step 2, at sample 1 of a
3-frame video. -/
theorem claim_C4_window_construction_witness :
    (windowIndices 4 2 1 3).length = 4 ∧
    (windowIndices 4 2 1 3).getD 2 0 = 1 ∧
    (windowIndices 4 2 1 3).Pairwise (· ≤ ·) ∧
    (windowOf ["a", "b", "c"] 4 2 1).length = 4 ∧
    (∀ s ∈ windowOf ["a", "b", "c"] 4 2 1, s ∈ (["a", "b", "c"] : List String)) := by
  obtain ⟨h1, h2, h3, _, h5, h6⟩ :=
    claim_C4_window_construction ["a", "b", "c"] 4 2 1 (by norm_num) (by norm_num) (by simp)
  exact ⟨h1, h2, h3, h5, h6⟩

/-- **C10** (algebraic properties of `iou`): `iou` is commutative; for
well-formed boxes the overlap lies in `[0, 1]`; and the overlap is `0`
whenever the computed intersection width or height is not strictly
positive. -/
theorem claim_C10_iou_properties (a b : Box) :
    iou a b = iou b a ∧
    (a.WellFormed → b.WellFormed → 0 ≤ iou a b ∧ iou a b ≤ 1) ∧
    ((iouIW a b ≤ 0 ∨ iouIH a b ≤ 0) → iou a b = 0) := by
  refine ⟨?_, ?_, ?_⟩
  · simp only [iou]
    rw [iouIW_comm, iouIH_comm]
    split
    · congr 1
      ring
    · rfl
  · intro ha hb
    obtain ⟨hax, hay⟩ := ha
    obtain ⟨hbx, hby⟩ := hb
    by_cases h : 0 < iouIW a b ∧ 0 < iouIH a b
    · obtain ⟨hiw, hih⟩ := h
      have hwa : iouIW a b ≤ a.xmax - a.xmin + 1 := by
        rw [iouIW]
        have h1 := min_le_left a.xmax b.xmax
        have h2 := le_max_left a.xmin b.xmin
        linarith
      have hha : iouIH a b ≤ a.ymax - a.ymin + 1 := by
        rw [iouIH]
        have h1 := min_le_left a.ymax b.ymax
        have h2 := le_max_left a.ymin b.ymin
        linarith
      have hwb : iouIW a b ≤ b.xmax - b.xmin + 1 := by
        rw [iouIW]
        have h1 := min_le_right a.xmax b.xmax
        have h2 := le_max_right a.xmin b.xmin
        linarith
      have hhb : iouIH a b ≤ b.ymax - b.ymin + 1 := by
        rw [iouIH]
        have h1 := min_le_right a.ymax b.ymax
        have h2 := le_max_right a.ymin b.ymin
        linarith
      have hIA : iouIW a b * iouIH a b ≤ (a.xmax - a.xmin + 1) * (a.ymax - a.ymin + 1) := by
        apply mul_le_mul hwa hha hih.le (by linarith)
      have hIB : iouIW a b * iouIH a b ≤ (b.xmax - b.xmin + 1) * (b.ymax - b.ymin + 1) := by
        apply mul_le_mul hwb hhb hih.le (by linarith)
      have hIpos : 0 < iouIW a b * iouIH a b := mul_pos hiw hih
      simp only [iou, if_pos (And.intro hiw hih)]
      have huapos : 0 < (a.xmax - a.xmin + 1) * (a.ymax - a.ymin + 1) +
          (b.xmax - b.xmin + 1) * (b.ymax - b.ymin + 1) - iouIW a b * iouIH a b := by
        linarith
      constructor
      · exact div_nonneg hIpos.le huapos.le
      · rw [div_le_one huapos]
        linarith
    · simp only [iou, if_neg h]
      norm_num
  · intro h
    have hn : ¬ (0 < iouIW a b ∧ 0 < iouIH a b) := by
      rcases h with h | h
      · exact fun hc => absurd hc.1 (not_lt.mpr h)
      · exact fun hc => absurd hc.2 (not_lt.mpr h)
    simp only [iou, if_neg hn]

/-- A closed-form instance of C10 at concrete boxes. -/
theorem claim_C10_iou_properties_witness :
    iou ⟨0, 0, 2, 2⟩ ⟨1, 1, 3, 3⟩ = iou ⟨1, 1, 3, 3⟩ ⟨0, 0, 2, 2⟩ ∧
    (0 ≤ iou ⟨0, 0, 2, 2⟩ ⟨1, 1, 3, 3⟩ ∧ iou ⟨0, 0, 2, 2⟩ ⟨1, 1, 3, 3⟩ ≤ 1) := by
  obtain ⟨h1, h2, _⟩ := claim_C10_iou_properties ⟨0, 0, 2, 2⟩ ⟨1, 1, 3, 3⟩
  exact ⟨h1, h2 (by constructor <;> norm_num) (by constructor <;> norm_num)⟩

lemma getD_set_ne {α : Type} (x : List α) (e j : ℕ) (a d : α) (h : e ≠ j) :
    (x.set e a).getD j d = x.getD j d := by
  rw [List.getD_eq_getElem?_getD, List.getD_eq_getElem?_getD, List.getElem?_set_ne h]

lemma getD_set_self {α : Type} (x : List α) (e : ℕ) (a d : α) (h : e < x.length) :
    (x.set e a).getD e d = a := by
  rw [List.getD_eq_getElem?_getD, List.getElem?_set_self h]
  rfl

lemma padLoop_length (l : List (List ℚ)) (e : ℕ) (x : List (List ℚ)) :
    (padLoop l e x).length = x.length := by
  induction l generalizing e x with
  | nil => rfl
  | cons row rest ih => rw [padLoop, ih, List.length_set]

lemma padLoop_getD (l : List (List ℚ)) (e : ℕ) (x : List (List ℚ))
    (h : e + l.length ≤ x.length) (j : ℕ) :
    (padLoop l e x).getD j [] =
      if e ≤ j ∧ j < e + l.length then addRow (x.getD j []) (l.getD (j - e) [])
      else x.getD j [] := by
  induction l generalizing e x with
  | nil =>
    rw [padLoop, if_neg (by simp only [List.length_nil]; omega)]
  | cons row rest ih =>
    simp only [List.length_cons] at h
    rw [padLoop]
    rw [ih (e + 1) _ (by rw [List.length_set]; omega)]
    by_cases h1 : e + 1 ≤ j ∧ j < e + 1 + rest.length
    · rw [if_pos h1, if_pos (by simp only [List.length_cons]; omega)]
      rw [getD_set_ne _ _ _ _ _ (by omega : e ≠ j)]
      have hidx : j - e = (j - (e + 1)) + 1 := by omega
      rw [hidx, List.getD_cons_succ]
    · rw [if_neg h1]
      by_cases h2 : j = e
      · subst h2
        rw [if_pos (by simp only [List.length_cons]; omega)]
        rw [getD_set_self _ _ _ _ (by omega), Nat.sub_self, List.getD_cons_zero]
      · rw [if_neg (by simp only [List.length_cons]; omega)]
        exact getD_set_ne _ _ _ _ _ (fun hh => h2 hh.symm)

lemma addRow_neg_ones (row : List ℚ) (h : row.length = 6) :
    addRow (List.replicate 6 (-1)) row = row := by
  rw [addRow]
  have : ∀ (k : ℕ) (r : List ℚ), r.length = k →
      List.zipWith (fun a b => a + (b + 1)) (List.replicate k (-1)) r = r := by
    intro k
    induction k with
    | zero => intro r hr; rw [List.length_eq_zero] at hr; subst hr; rfl
    | succ m ihm =>
      intro r hr
      match r with
      | [] => simp at hr
      | v :: vs =>
        simp only [List.length_cons] at hr
        rw [List.replicate_succ, List.zipWith_cons_cons, ihm vs (by omega)]
        norm_num
  exact this 6 row h

/-- **C9** (label padding): for a jagged label list with at most `maxlen`
rows, each of width 6, `_pad_to_dense` returns a dense `maxlen`-row array
whose first `labels.length` rows equal the input rows and whose remaining
rows are all `-1`. -/
theorem claim_C9_pad_to_dense (labels : List (List ℚ)) (maxlen : ℕ)
    (hlen : labels.length ≤ maxlen) (hrows : ∀ row ∈ labels, row.length = 6) :
    (pad_to_dense labels maxlen).length = maxlen ∧
    (∀ i, i < labels.length → (pad_to_dense labels maxlen).getD i [] = labels.getD i []) ∧
    (∀ i, labels.length ≤ i → i < maxlen →
      (pad_to_dense labels maxlen).getD i [] = List.replicate 6 (-1)) := by
  have hbase : (List.replicate maxlen (List.replicate 6 (-1 : ℚ))).length = maxlen :=
    List.length_replicate _ _
  have hget := padLoop_getD labels 0 (List.replicate maxlen (List.replicate 6 (-1)))
    (by rw [hbase]; omega)
  refine ⟨?_, ?_, ?_⟩
  · rw [pad_to_dense, padLoop_length, hbase]
  · intro i hi
    rw [pad_to_dense, hget i, if_pos (by omega)]
    have hrepl : (List.replicate maxlen (List.replicate 6 (-1 : ℚ))).getD i [] =
        List.replicate 6 (-1) := by
      rw [List.getD_eq_getElem?_getD, List.getElem?_replicate, if_pos (by omega)]
      rfl
    rw [hrepl, Nat.sub_zero, addRow_neg_ones]
    apply hrows
    rw [List.getD_eq_getElem?_getD, List.getElem?_eq_getElem hi]
    exact List.getElem_mem hi
  · intro i hi himax
    rw [pad_to_dense, hget i, if_neg (by omega)]
    rw [List.getD_eq_getElem?_getD, List.getElem?_replicate, if_pos himax]
    rfl

/-- A closed-form instance of C9 on a two-row label list padded to 4 rows. -/
theorem claim_C9_pad_to_dense_witness :
    (pad_to_dense [[1, 2, 3, 4, 5, 6], [7, 8, 9, 10, 11, 12]] 4).length = 4 ∧
    (pad_to_dense [[1, 2, 3, 4, 5, 6], [7, 8, 9, 10, 11, 12]] 4).getD 1 [] =
      [7, 8, 9, 10, 11, 12] ∧
    (pad_to_dense [[1, 2, 3, 4, 5, 6], [7, 8, 9, 10, 11, 12]] 4).getD 3 [] =
      List.replicate 6 (-1) := by
  obtain ⟨h1, h2, h3⟩ := claim_C9_pad_to_dense [[1, 2, 3, 4, 5, 6], [7, 8, 9, 10, 11, 12]] 4
    (by norm_num) (by intro row hr; simp at hr; rcases hr with h | h <;> (subst h; rfl))
  refine ⟨h1, ?_, h3 3 (by norm_num) (by norm_num)⟩
  have := h2 1 (by norm_num)
  simpa using this

/-- **C8** (implicit postcondition of box validation): whenever
`_validate_label` returns instead of raising, the returned coordinates
satisfy `0 <= xmin < 1`, `0 <= ymin < 1`, `xmin < xmax <= 1`,
`ymin < ymax <= 1`; an input whose clamped `xmin` or `ymin` equals `1`
raises `AssertionError`; and `_load_label` reacts to the `AssertionError`
by skipping the object. -/
theorem claim_C8_validate_label (a b c d : ℚ) :
    (∀ x y X Y, validate_label a b c d = .ok (x, y, X, Y) →
      (0 ≤ x ∧ x < 1) ∧ (0 ≤ y ∧ y < 1) ∧ (x < X ∧ X ≤ 1) ∧ (y < Y ∧ Y ≤ 1)) ∧
    ((min (max 0 a) 1 = 1 ∨ min (max 0 b) 1 = 1) →
      ∃ msg, validate_label a b c d = .error msg) ∧
    (∀ msg, validate_label a b c d = .error msg →
      ∀ ab : Bool, load_label_box ab a b c d = none) := by
  refine ⟨?_, ?_, ?_⟩
  · intro x y X Y h
    unfold validate_label at h
    split_ifs at h with hfix
    · obtain ⟨hx, hy, hX, hY, h5, h6, h7, h8⟩ := boxAsserts_ok h
      subst hx; subst hy; subst hX; subst hY
      exact ⟨h5, h6, h7, h8⟩
    · obtain ⟨hx, hy, hX, hY, h5, h6, h7, h8⟩ := boxAsserts_ok h
      subst hx; subst hy; subst hX; subst hY
      exact ⟨h5, h6, h7, h8⟩
  · intro h
    have hfix : ¬ (0 ≤ a ∧ a < 1) ∨ ¬ (0 ≤ b ∧ b < 1) ∨
        ¬ (a < c ∧ c ≤ 1) ∨ ¬ (b < d ∧ d ≤ 1) := by
      rcases h with h | h
      · left
        intro ⟨h1, h2⟩
        rw [max_eq_right h1, min_eq_left h2.le] at h
        exact absurd h (by linarith)
      · right; left
        intro ⟨h1, h2⟩
        rw [max_eq_right h1, min_eq_left h2.le] at h
        exact absurd h (by linarith)
    unfold validate_label
    rw [if_pos hfix]
    by_cases ha : min (max 0 a) 1 = 1
    · exact boxAsserts_err_of_xmin_one ha
    · have hb : min (max 0 b) 1 = 1 := by tauto
      refine boxAsserts_err_of_ymin_one ⟨?_, ?_⟩ hb
      · exact le_min (le_max_left 0 a) zero_le_one
      · exact lt_of_le_of_ne (min_le_right _ _) ha
  · intro msg h ab
    unfold load_label_box
    split_ifs with hc
    · rfl
    · rw [h]

/-- A closed-form instance of C8: the box `(2, 1/2, 3, 1)` clamps its `xmin`
to `1` and is rejected, and the surrounding loader skips it; the valid box
`(1/4, 1/4, 1/2, 1/2)` passes through with in-range coordinates. -/
theorem claim_C8_validate_label_witness :
    (∃ msg, validate_label 2 (1/2) 3 1 = .error msg) ∧
    (∀ ab : Bool, load_label_box ab 2 (1/2) 3 1 = none) ∧
    ((0 ≤ (1/4 : ℚ) ∧ (1/4 : ℚ) < 1) ∧ (0 ≤ (1/4 : ℚ) ∧ (1/4 : ℚ) < 1) ∧
      ((1/4 : ℚ) < 1/2 ∧ (1/2 : ℚ) ≤ 1) ∧ ((1/4 : ℚ) < 1/2 ∧ (1/2 : ℚ) ≤ 1)) := by
  obtain ⟨h1, h2, h3⟩ := claim_C8_validate_label 2 (1/2) 3 1
  obtain ⟨msg, hmsg⟩ := h2 (Or.inl (by norm_num))
  have hok : validate_label (1/4) (1/4) (1/2) (1/2) = .ok (1/4, 1/4, 1/2, 1/2) := by
    norm_num [validate_label, boxAsserts]
  exact ⟨⟨msg, hmsg⟩, h3 msg hmsg,
    (claim_C8_validate_label (1/4) (1/4) (1/2) (1/2)).1 _ _ _ _ hok⟩

set_option maxHeartbeats 2000000 in
/-- **C5** (constructor validation of temporal-fusion configuration): with
`block_conv_type` in `{3, 21}`, construction raises unless
`k > 1`, `k_join_pos == late` and `k_join_type` is not `None`; construction
raises whenever `rnn_pos`, `k_join_type`, `k_join_pos` or `corr_pos` is
outside its allowed set; and under a configuration satisfying all of these
conditions none of those error branches fires (the only remaining `assert`
is the `late` `rnn_pos` / `late` `k_join_pos` coupling, a branch the claim
does not mention). -/
theorem claim_C5_init_validation (k : ℤ) (bct : String)
    (kjt kjp rnn corr : Option String) :
    ((bct = "3" ∨ bct = "21") → ¬ (1 < k ∧ kjp = some "late" ∧ kjt ≠ none) →
      ∃ e, yolov3t_init_checks k bct kjt kjp rnn corr = .error e) ∧
    (rnn ∉ ([none, some "late", some "out"] : List (Option String)) →
      ∃ e, yolov3t_init_checks k bct kjt kjp rnn corr = .error e) ∧
    (kjt ∉ ([none, some "max", some "mean", some "cat"] : List (Option String)) →
      ∃ e, yolov3t_init_checks k bct kjt kjp rnn corr = .error e) ∧
    (kjp ∉ ([none, some "early", some "late"] : List (Option String)) →
      ∃ e, yolov3t_init_checks k bct kjt kjp rnn corr = .error e) ∧
    (corr ∉ ([none, some "early", some "late"] : List (Option String)) →
      ∃ e, yolov3t_init_checks k bct kjt kjp rnn corr = .error e) ∧
    ((((bct = "3" ∨ bct = "21") → (1 < k ∧ kjp = some "late" ∧ kjt ≠ none)) ∧
      rnn ∈ ([none, some "late", some "out"] : List (Option String)) ∧
      kjt ∈ ([none, some "max", some "mean", some "cat"] : List (Option String)) ∧
      kjp ∈ ([none, some "early", some "late"] : List (Option String)) ∧
      corr ∈ ([none, some "early", some "late"] : List (Option String))) →
      yolov3t_init_checks k bct kjt kjp rnn corr = .ok () ∨
      yolov3t_init_checks k bct kjt kjp rnn corr = .error .lateRnnNeedsLateJoinPos) := by
  unfold yolov3t_init_checks
  split_ifs with h1 h2 h3 h4 h5 h6 h7 h8 h9 <;>
    refine ⟨?_, ?_, ?_, ?_, ?_, ?_⟩ <;>
    · intros
      first
      | exact ⟨_, rfl⟩
      | exact Or.inl rfl
      | exact Or.inr rfl
      | tauto

/-- A closed-form instance of C5: an invalid 3D configuration with `k = 1`
raises, and the valid configuration `k = 2`, `late` `max` joining passes. -/
theorem claim_C5_init_validation_witness :
    (∃ e, yolov3t_init_checks 1 "3" (some "max") (some "late") none none = .error e) ∧
    (yolov3t_init_checks 2 "3" (some "max") (some "late") none none = .ok () ∨
      yolov3t_init_checks 2 "3" (some "max") (some "late") none none =
        .error .lateRnnNeedsLateJoinPos) := by
  refine ⟨(claim_C5_init_validation 1 "3" (some "max") (some "late") none none).1
    (Or.inl rfl) (by intro ⟨hk, _, _⟩; exact absurd hk (by norm_num)), ?_⟩
  exact (claim_C5_init_validation 2 "3" (some "max") (some "late") none none).2.2.2.2.2
    ⟨fun _ => ⟨by norm_num, rfl, by simp⟩, by simp, by simp, by simp, by simp⟩

/-- **C7** (training driver window/dataset coupling): with `window[0] > 1`,
`main` raises an `AssertionError` unless the `vid` dataset is requested;
with `window[0] <= 1` it forces `k_join_type` and `k_join_pos` to `None`
before the network is built. -/
theorem claim_C7_window_dataset (w0 : ℤ) (ds : List String) (kjt kjp : Option String) :
    (1 < w0 → "vid" ∉ ds → ∃ msg, main_window_check w0 ds kjt kjp = .error msg) ∧
    (1 < w0 → "vid" ∈ ds → main_window_check w0 ds kjt kjp = .ok (kjt, kjp)) ∧
    (w0 ≤ 1 → main_window_check w0 ds kjt kjp = .ok (none, none)) := by
  unfold main_window_check
  split_ifs with h1 h2 <;>
    refine ⟨?_, ?_, ?_⟩ <;>
    · intros
      first
      | exact ⟨_, rfl⟩
      | rfl
      | omega
      | tauto

/-- A closed-form instance of C7 at concrete flag values. -/
theorem claim_C7_window_dataset_witness :
    (∃ msg, main_window_check 2 ["voc"] (some "max") (some "late") = .error msg) ∧
    main_window_check 2 ["vid"] (some "max") (some "late") = .ok (some "max", some "late") ∧
    main_window_check 1 ["voc"] (some "max") (some "late") = .ok (none, none) := by
  refine ⟨(claim_C7_window_dataset 2 ["voc"] (some "max") (some "late")).1 (by norm_num)
    (by simp), ?_, ?_⟩
  · exact (claim_C7_window_dataset 2 ["vid"] (some "max") (some "late")).2.1 (by norm_num) (by simp)
  · exact (claim_C7_window_dataset 1 ["voc"] (some "max") (some "late")).2.2 (by norm_num)

/-! ## The dual-mode forward pass of `YOLOV3` —
src/models/definitions/yolo/yolo3.py lines 493-601

A batched tensor of detection rows is modelled as nested lists: axis 0 the
batch, axis 1 the rows, axis 2 the row entries.  The backbone stages, the
YOLO blocks and the per-stage output layers are opaque tensor producers, so
each stage is represented by the tuple of tensors its output layer returns
in training mode (already reshaped as in lines 529-539); the target
generator `YOLOV3TargetMerger`, the loss `YOLOV3Loss` and
`F.contrib.box_nms` are abstract functions. -/

abbrev Tensor3 : Type := List (List (List ℚ))

/-- `F.concat(*ts, dim=1)`: rows of corresponding batch elements appended. -/
def concatDim1 : List Tensor3 → Tensor3
  | [] => []
  | t :: rest => rest.foldl (fun a b => List.zipWith (· ++ ·) a b) t

/-- `slice_axis(axis=-1, begin=b, end=e)` on a `(B, N, C)` tensor. -/
def sliceLast (b e : ℕ) (t : Tensor3) : Tensor3 :=
  t.map (fun img => img.map (fun row => (row.drop b).take (e - b)))

/-- `slice_axis(axis=-1, begin=b, end=None)`. -/
def sliceLastFrom (b : ℕ) (t : Tensor3) : Tensor3 :=
  t.map (fun img => img.map (fun row => row.drop b))

/-- `slice_axis(axis=1, begin=0, end=e)`: the first `e` rows of each image. -/
def sliceRows (e : ℕ) (t : Tensor3) : Tensor3 :=
  t.map (fun img => img.take e)

/-- The NMS parameters stored on a detector instance. -/
structure NmsParams where
  nms_thresh : ℚ
  nms_topk : ℤ
  post_nms : ℤ

/-- Embedding of `YOLOV3.set_nms` (lines 581-601): stores the three
parameters on the instance (the cached-op clearing has no functional
effect). -/
def set_nms (_ : NmsParams) (nms_thresh : ℚ) (nms_topk post_nms : ℤ) : NmsParams :=
  ⟨nms_thresh, nms_topk, post_nms⟩

/-- Embedding of the inference tail of `YOLOV3.hybrid_forward`
(lines 567-575): concatenate the per-stage detections along axis 1, apply
`F.contrib.box_nms` when `0 < nms_thresh < 1`, and when additionally
`post_nms > 0` keep only the first `post_nms` rows of each image. -/
def inferenceResult (p : NmsParams) (box_nms : ℚ → ℤ → Tensor3 → Tensor3)
    (all_detections : List Tensor3) : Tensor3 :=
  if 0 < p.nms_thresh ∧ p.nms_thresh < 1 then
    if 0 < p.post_nms then
      sliceRows p.post_nms.toNat
        (box_nms p.nms_thresh p.nms_topk (concatDim1 all_detections))
    else box_nms p.nms_thresh p.nms_topk (concatDim1 all_detections)
  else concatDim1 all_detections

/-- The tensors a per-stage output layer returns in training mode
(`dets, box_centers, box_scales, objness, class_pred, anchors, offsets`,
plus the fake feature map), already reshaped as appended in lines 529-539. -/
structure StageOut where
  dets : Tensor3
  boxCenters : Tensor3
  boxScales : Tensor3
  objness : Tensor3
  classPred : Tensor3
  anchors : Tensor3
  offsets : Tensor3
  featMap : Tensor3

/-- The three possible shapes of the value `YOLOV3.hybrid_forward` returns:
the four losses `(obj_loss, center_loss, scale_loss, cls_loss)`, the
raw-prediction 8-tuple, or the inference triple. -/
inductive ForwardOut (T L : Type) where
  | losses (obj_loss center_loss scale_loss cls_loss : L)
  | rawPreds (dets : Tensor3) (anchors offsets featMaps : List Tensor3)
      (boxCenters boxScales objness classPred : Tensor3)
  | detections (ids scores bboxes : Tensor3)

/-- Embedding of the mode dispatch of `YOLOV3.hybrid_forward`
(lines 552-579): when training and recording, the target generator runs on
the concatenated box predictions and the loss (`YOLOV3Loss`, which yields
the quadruple `(obj_loss, center_loss, scale_loss, cls_loss)`) on the
concatenated predictions plus targets; when training without recording,
the raw 8-tuple is returned; otherwise the NMS tail runs and the result is
sliced into `(ids, scores, bboxes)` along the last axis. -/
def hybrid_forward (T L : Type) (training recording : Bool) (p : NmsParams)
    (box_nms : ℚ → ℤ → Tensor3 → Tensor3)
    (target_generator : Tensor3 → T)
    (loss : Tensor3 → Tensor3 → Tensor3 → Tensor3 → T → L × L × L × L)
    (stages : List StageOut) : ForwardOut T L :=
  if training then
    if recording then
      let box_preds := concatDim1 (stages.map (fun s => s.dets))
      let all_targets := target_generator box_preds
      let l := loss (concatDim1 (stages.map (fun s => s.objness)))
                    (concatDim1 (stages.map (fun s => s.boxCenters)))
                    (concatDim1 (stages.map (fun s => s.boxScales)))
                    (concatDim1 (stages.map (fun s => s.classPred)))
                    all_targets
      .losses l.1 l.2.1 l.2.2.1 l.2.2.2
    else
      .rawPreds (concatDim1 (stages.map (fun s => s.dets)))
        (stages.map (fun s => s.anchors)) (stages.map (fun s => s.offsets))
        (stages.map (fun s => s.featMap))
        (concatDim1 (stages.map (fun s => s.boxCenters)))
        (concatDim1 (stages.map (fun s => s.boxScales)))
        (concatDim1 (stages.map (fun s => s.objness)))
        (concatDim1 (stages.map (fun s => s.classPred)))
  else
    .detections
      (sliceLast 0 1 (inferenceResult p box_nms (stages.map (fun s => s.dets))))
      (sliceLast 1 2 (inferenceResult p box_nms (stages.map (fun s => s.dets))))
      (sliceLastFrom 2 (inferenceResult p box_nms (stages.map (fun s => s.dets))))

/-- **C1** (training/inference dual-mode behaviour of
`YOLOV3.hybrid_forward`): when training and recording, the result is
exactly the four losses `(obj_loss, center_loss, scale_loss, cls_loss)`
produced by the target generator and `YOLOV3Loss` on the concatenated
per-stage predictions; when training without recording, the raw-prediction
8-tuple; otherwise the `(ids, scores, bboxes)` triple sliced from the
post-NMS result, where for every detection row ids take column 0, scores
column 1 and bboxes the columns from 2 on (the three slices partition each
row). -/
theorem claim_C1_dual_mode (T L : Type) (p : NmsParams)
    (box_nms : ℚ → ℤ → Tensor3 → Tensor3) (target_generator : Tensor3 → T)
    (loss : Tensor3 → Tensor3 → Tensor3 → Tensor3 → T → L × L × L × L)
    (stages : List StageOut) (training recording : Bool) :
    (training = true → recording = true →
      hybrid_forward T L training recording p box_nms target_generator loss stages =
        .losses
          (loss (concatDim1 (stages.map (fun s => s.objness)))
            (concatDim1 (stages.map (fun s => s.boxCenters)))
            (concatDim1 (stages.map (fun s => s.boxScales)))
            (concatDim1 (stages.map (fun s => s.classPred)))
            (target_generator (concatDim1 (stages.map (fun s => s.dets))))).1
          (loss (concatDim1 (stages.map (fun s => s.objness)))
            (concatDim1 (stages.map (fun s => s.boxCenters)))
            (concatDim1 (stages.map (fun s => s.boxScales)))
            (concatDim1 (stages.map (fun s => s.classPred)))
            (target_generator (concatDim1 (stages.map (fun s => s.dets))))).2.1
          (loss (concatDim1 (stages.map (fun s => s.objness)))
            (concatDim1 (stages.map (fun s => s.boxCenters)))
            (concatDim1 (stages.map (fun s => s.boxScales)))
            (concatDim1 (stages.map (fun s => s.classPred)))
            (target_generator (concatDim1 (stages.map (fun s => s.dets))))).2.2.1
          (loss (concatDim1 (stages.map (fun s => s.objness)))
            (concatDim1 (stages.map (fun s => s.boxCenters)))
            (concatDim1 (stages.map (fun s => s.boxScales)))
            (concatDim1 (stages.map (fun s => s.classPred)))
            (target_generator (concatDim1 (stages.map (fun s => s.dets))))).2.2.2) ∧
    (training = true → recording = false →
      hybrid_forward T L training recording p box_nms target_generator loss stages =
        .rawPreds (concatDim1 (stages.map (fun s => s.dets)))
          (stages.map (fun s => s.anchors)) (stages.map (fun s => s.offsets))
          (stages.map (fun s => s.featMap))
          (concatDim1 (stages.map (fun s => s.boxCenters)))
          (concatDim1 (stages.map (fun s => s.boxScales)))
          (concatDim1 (stages.map (fun s => s.objness)))
          (concatDim1 (stages.map (fun s => s.classPred)))) ∧
    (training = false →
      hybrid_forward T L training recording p box_nms target_generator loss stages =
        .detections
          (sliceLast 0 1 (inferenceResult p box_nms (stages.map (fun s => s.dets))))
          (sliceLast 1 2 (inferenceResult p box_nms (stages.map (fun s => s.dets))))
          (sliceLastFrom 2 (inferenceResult p box_nms (stages.map (fun s => s.dets)))) ∧
      ∀ img ∈ inferenceResult p box_nms (stages.map (fun s => s.dets)), ∀ row ∈ img,
        (row.drop 0).take 1 ++ ((row.drop 1).take 1 ++ row.drop 2) = row) := by
  refine ⟨?_, ?_, ?_⟩
  · intro h1 h2
    subst h1; subst h2
    rfl
  · intro h1 h2
    subst h1; subst h2
    rfl
  · intro h1
    subst h1
    refine ⟨rfl, ?_⟩
    intro img _ row _
    have h2 := List.take_append_drop 1 (row.drop 1)
    rw [List.drop_drop] at h2
    rw [List.drop_zero]
    calc row.take 1 ++ (List.take 1 (row.drop 1) ++ row.drop 2)
        = row.take 1 ++ row.drop 1 := by
          rw [show (2 : ℕ) = 1 + 1 from rfl, h2]
      _ = row := List.take_append_drop 1 row

/-- A closed-form instance of C1 in each of the three modes, on a one-stage
network with identity NMS and constant target generator and loss. -/
theorem claim_C1_dual_mode_witness :
    (hybrid_forward ℚ ℚ true true ⟨9/20, 400, 100⟩ (fun _ _ t => t) (fun _ => (0 : ℚ))
      (fun _ _ _ _ _ => ((7 : ℚ), 8, 9, 10)) [] = .losses 7 8 9 10) ∧
    (hybrid_forward ℚ ℚ true false ⟨9/20, 400, 100⟩ (fun _ _ t => t) (fun _ => (0 : ℚ))
      (fun _ _ _ _ _ => ((7 : ℚ), 8, 9, 10)) [] = .rawPreds [] [] [] [] [] [] [] []) ∧
    (hybrid_forward ℚ ℚ false false ⟨9/20, 400, 100⟩ (fun _ _ t => t) (fun _ => (0 : ℚ))
      (fun _ _ _ _ _ => ((7 : ℚ), 8, 9, 10))
      [⟨[[[0, 1, 2, 3, 4, 5]]], [], [], [], [], [], [], []⟩] =
      .detections [[[0]]] [[[1]]] [[[2, 3, 4, 5]]]) := by
  refine ⟨?_, ?_, ?_⟩
  · have h := (claim_C1_dual_mode ℚ ℚ ⟨9/20, 400, 100⟩ (fun _ _ t => t) (fun _ => (0 : ℚ))
      (fun _ _ _ _ _ => ((7 : ℚ), 8, 9, 10)) [] true true).1 rfl rfl
    simpa using h
  · have h := (claim_C1_dual_mode ℚ ℚ ⟨9/20, 400, 100⟩ (fun _ _ t => t) (fun _ => (0 : ℚ))
      (fun _ _ _ _ _ => ((7 : ℚ), 8, 9, 10)) [] true false).2.1 rfl rfl
    simpa using h
  · have h := (claim_C1_dual_mode ℚ ℚ ⟨9/20, 400, 100⟩ (fun _ _ t => t) (fun _ => (0 : ℚ))
      (fun _ _ _ _ _ => ((7 : ℚ), 8, 9, 10))
      [⟨[[[0, 1, 2, 3, 4, 5]]], [], [], [], [], [], [], []⟩] false false).2.2 rfl
    rw [h.1]
    norm_num [inferenceResult, concatDim1, sliceRows, sliceLast, sliceLastFrom]

/-- **C2** (NMS gating and truncation): NMS runs on the concatenated
detections exactly when `0 < nms_thresh < 1` (otherwise the concatenation
is returned unfiltered); when it runs and `post_nms > 0` the result is the
NMS output truncated to its first `post_nms` rows per image, hence each
image has at most `post_nms` detection rows; parameters installed through
`set_nms` are exactly the ones consulted. -/
theorem claim_C2_nms_gating (p : NmsParams) (box_nms : ℚ → ℤ → Tensor3 → Tensor3)
    (all_detections : List Tensor3) :
    (¬ (0 < p.nms_thresh ∧ p.nms_thresh < 1) →
      inferenceResult p box_nms all_detections = concatDim1 all_detections) ∧
    (0 < p.nms_thresh → p.nms_thresh < 1 → 0 < p.post_nms →
      inferenceResult p box_nms all_detections =
        sliceRows p.post_nms.toNat
          (box_nms p.nms_thresh p.nms_topk (concatDim1 all_detections)) ∧
      ∀ img ∈ inferenceResult p box_nms all_detections,
        img.length ≤ p.post_nms.toNat) ∧
    (0 < p.nms_thresh → p.nms_thresh < 1 → ¬ (0 < p.post_nms) →
      inferenceResult p box_nms all_detections =
        box_nms p.nms_thresh p.nms_topk (concatDim1 all_detections)) ∧
    (∀ (q : NmsParams) (t : ℚ) (k m : ℤ),
      inferenceResult (set_nms q t k m) box_nms all_detections =
        inferenceResult ⟨t, k, m⟩ box_nms all_detections) := by
  refine ⟨?_, ?_, ?_, ?_⟩
  · intro h
    rw [inferenceResult, if_neg h]
  · intro h1 h2 h3
    have heq : inferenceResult p box_nms all_detections =
        sliceRows p.post_nms.toNat
          (box_nms p.nms_thresh p.nms_topk (concatDim1 all_detections)) := by
      rw [inferenceResult, if_pos ⟨h1, h2⟩, if_pos h3]
    refine ⟨heq, ?_⟩
    intro img himg
    rw [heq, sliceRows, List.mem_map] at himg
    obtain ⟨img', _, rfl⟩ := himg
    exact (List.length_take _ _).le.trans (min_le_left _ _)
  · intro h1 h2 h3
    rw [inferenceResult, if_pos ⟨h1, h2⟩, if_neg h3]
  · intro q t k m
    rfl

/-- A closed-form instance of C2: a threshold of 2 disables NMS; a
threshold of 9/20 with `post_nms = 2` truncates the identity-NMS output of
a 3-row image to 2 rows. -/
theorem claim_C2_nms_gating_witness :
    (inferenceResult ⟨2, 400, 100⟩ (fun _ _ t => t) [[[[1], [2], [3]]]] =
      [[[1], [2], [3]]]) ∧
    (inferenceResult ⟨9/20, 400, 2⟩ (fun _ _ t => t) [[[[1], [2], [3]]]] =
      [[[1], [2]]]) ∧
    (∀ img ∈ inferenceResult ⟨9/20, 400, 2⟩ (fun _ _ t => t) [[[[1], [2], [3]]]],
      img.length ≤ 2) := by
  obtain ⟨hA, hB, _, _⟩ := claim_C2_nms_gating ⟨2, 400, 100⟩ (fun _ _ t => t) [[[[1], [2], [3]]]]
  obtain ⟨_, hB2, _, _⟩ := claim_C2_nms_gating ⟨9/20, 400, 2⟩ (fun _ _ t => t) [[[[1], [2], [3]]]]
  have h1 := hA (by intro ⟨_, hlt⟩; exact absurd hlt (by norm_num))
  obtain ⟨h2, h3⟩ := hB2 (by norm_num) (by norm_num) (by norm_num)
  refine ⟨by simpa using h1, by rw [h2]; rfl, by simpa using h3⟩

/-! ## Hierarchical class masking — src/models/definitions/yolo/yolo3.py
lines 199-235

`YOLOOutputV3.hybrid_forward` at inference with `hier_info` builds, for
each box, a one-hot (or all-zero) mask over the flat class-score vector by
scanning hierarchy levels from the deepest (`int(max(levels))`) down to 1
and keeping the argmax of the first level whose masked maximum exceeds the
threshold `0.3`; the masked detections reuse the ids and bboxes with
`mask * scores`. -/

/-- `np.max` over a (nonempty in the source) array. -/
def npMax : List ℚ → ℚ
  | [] => 0
  | x :: xs => xs.foldl max x

/-- `np.argmax`: index of the first occurrence of the maximum. -/
def npArgmax (l : List ℚ) : ℕ := l.findIdx (fun x => decide (x = npMax l))

/-- `leaf_mask = np.where(levels < level, 1, 0) * leafs`. -/
def leafMask (levels leafs : List ℕ) (level : ℕ) : List ℕ :=
  List.zipWith (fun lv lf => (if lv < level then 1 else 0) * lf) levels leafs

/-- `level_mask = np.where(levels == level, 1, 0)`. -/
def levelMask (levels : List ℕ) (level : ℕ) : List ℕ :=
  levels.map (fun lv => if lv = level then 1 else 0)

/-- `mask = np.maximum(leaf_mask, level_mask)`. -/
def hierMask (levels leafs : List ℕ) (level : ℕ) : List ℕ :=
  List.zipWith max (leafMask levels leafs level) (levelMask levels level)

/-- `masked_scores = mask * box_scores`. -/
def maskedScores (levels leafs : List ℕ) (level : ℕ) (scores : List ℚ) : List ℚ :=
  List.zipWith (fun m s => (m : ℚ) * s) (hierMask levels leafs level) scores

/-- The `for level in range(int(max(levels)), 0, -1)` loop with its
`break`: the argmax index contributed by the first (deepest) level whose
masked maximum exceeds the 0.3 threshold, `none` when no level qualifies. -/
def hierScan (levels leafs : List ℕ) (scores : List ℚ) : ℕ → Option ℕ
  | 0 => none
  | level + 1 =>
    if 3/10 < npMax (maskedScores levels leafs (level + 1) scores) then
      some (npArgmax (maskedScores levels leafs (level + 1) scores))
    else hierScan levels leafs scores level

/-- `int(max(levels))`. -/
def maxLevel (levels : List ℕ) : ℕ := levels.foldr max 0

/-- The per-box result of the masking loop: `mx_mask[b]` is all zeros with
at most a single `1` at the break index, and the box's row of `scores_flt`
is overwritten with `mx_mask[b, :] * scores_flt[b, :]`. -/
def hierMaskScores (levels leafs : List ℕ) (scores : List ℚ) : List ℚ :=
  match hierScan levels leafs scores (maxLevel levels) with
  | some ind => scores.mapIdx (fun j s => if j = ind then s else 0)
  | none => scores.map (fun _ => 0)

/-- A detection entering the hierarchical masking: its box data and its
flat class-score vector. -/
structure HierDet where
  bbox : List ℚ
  scores : List ℚ

/-- The inference return shape of `YOLOOutputV3.hybrid_forward`: without
`hier_info` only `detections` are returned; with `hier_info` the pair
`(detections, detections_masked)`, the masked ones sharing ids and bboxes
and carrying the masked scores. -/
def yoloOutputHier (hier_info : Option (List ℕ × List ℕ)) (dets : List HierDet) :
    List HierDet × Option (List HierDet) :=
  match hier_info with
  | none => (dets, none)
  | some hi =>
    (dets, some (dets.map (fun d => ⟨d.bbox, hierMaskScores hi.1 hi.2 d.scores⟩)))

/-- A one-hot 0/1 vector of length `n` with its `1` at `ind` (all zeros
when `ind` is out of range). -/
def onehotQ : ℕ → ℕ → List ℚ
  | 0, _ => []
  | n + 1, 0 => 1 :: List.replicate n 0
  | n + 1, ind + 1 => 0 :: onehotQ n ind

lemma onehotQ_length (n ind : ℕ) : (onehotQ n ind).length = n := by
  induction n generalizing ind with
  | zero => rfl
  | succ m ih =>
    cases ind with
    | zero => simp [onehotQ]
    | succ k => simp [onehotQ, ih k]

lemma onehotQ_mem (n ind : ℕ) : ∀ m ∈ onehotQ n ind, m = 0 ∨ m = 1 := by
  induction n generalizing ind with
  | zero => intro m hm; simp [onehotQ] at hm
  | succ p ih =>
    cases ind with
    | zero =>
      intro m hm
      rw [onehotQ, List.mem_cons] at hm
      rcases hm with h | h
      · right; exact h
      · left; exact List.eq_of_mem_replicate h
    | succ k =>
      intro m hm
      rw [onehotQ, List.mem_cons] at hm
      rcases hm with h | h
      · left; exact h
      · exact ih k m h

lemma countP_replicate_zero (n : ℕ) :
    (List.replicate n (0 : ℚ)).countP (fun m => decide (m ≠ 0)) = 0 := by
  rw [List.countP_eq_zero]
  intro m hm
  rw [List.eq_of_mem_replicate hm]
  simp

lemma onehotQ_countP (n ind : ℕ) :
    (onehotQ n ind).countP (fun m => decide (m ≠ 0)) ≤ 1 := by
  induction n generalizing ind with
  | zero => simp [onehotQ]
  | succ p ih =>
    cases ind with
    | zero =>
      rw [onehotQ, List.countP_cons, countP_replicate_zero]
      norm_num
    | succ k =>
      rw [onehotQ, List.countP_cons]
      simpa using ih k

lemma mapIdx_eq_map_of (c : ℚ → ℚ) :
    ∀ (f : ℕ → ℚ → ℚ), (∀ j s, f j s = c s) → ∀ l : List ℚ, l.mapIdx f = l.map c := by
  intro f hf l
  induction l generalizing f with
  | nil => rfl
  | cons a as ih =>
    rw [List.mapIdx_cons, List.map_cons, hf, ih (fun i => f (i + 1)) (fun j s => hf (j + 1) s)]

lemma zipWith_mul_replicate_zero (l : List ℚ) :
    List.zipWith (· * ·) (List.replicate l.length (0 : ℚ)) l = l.map (fun _ => 0) := by
  induction l with
  | nil => rfl
  | cons a as ih =>
    rw [List.length_cons, List.replicate_succ, List.zipWith_cons_cons, List.map_cons, ih,
      zero_mul]

lemma zipWith_mul_onehotQ (l : List ℚ) : ∀ ind : ℕ,
    List.zipWith (· * ·) (onehotQ l.length ind) l =
      l.mapIdx (fun j s => if j = ind then s else 0) := by
  induction l with
  | nil => intro ind; rfl
  | cons a as ih =>
    intro ind
    cases ind with
    | zero =>
      rw [List.length_cons, onehotQ, List.zipWith_cons_cons, List.mapIdx_cons,
        zipWith_mul_replicate_zero, one_mul, if_pos rfl,
        mapIdx_eq_map_of (fun _ => (0 : ℚ)) _ (fun j s => by simp)]
    | succ k =>
      rw [List.length_cons, onehotQ, List.zipWith_cons_cons, List.mapIdx_cons, ih k,
        zero_mul, if_neg (by omega)]
      congr 1
      apply congrArg (List.mapIdx · as)
      funext j s
      simp only [Nat.add_right_cancel_iff]

lemma hierScan_none (levels leafs : List ℕ) (scores : List ℚ) (L : ℕ)
    (h : ∀ lvl, 1 ≤ lvl → lvl ≤ L → npMax (maskedScores levels leafs lvl scores) ≤ 3/10) :
    hierScan levels leafs scores L = none := by
  induction L with
  | zero => rfl
  | succ p ih =>
    rw [hierScan, if_neg (not_lt.mpr (h (p + 1) (by omega) (by omega)))]
    exact ih (fun lvl h1 h2 => h lvl h1 (by omega))

lemma hierScan_some (levels leafs : List ℕ) (scores : List ℚ) (L lvl : ℕ)
    (h1 : 1 ≤ lvl) (h2 : lvl ≤ L)
    (h3 : 3/10 < npMax (maskedScores levels leafs lvl scores))
    (h4 : ∀ lvl2, lvl < lvl2 → lvl2 ≤ L →
      npMax (maskedScores levels leafs lvl2 scores) ≤ 3/10) :
    hierScan levels leafs scores L =
      some (npArgmax (maskedScores levels leafs lvl scores)) := by
  induction L with
  | zero => omega
  | succ p ih =>
    by_cases hl : lvl = p + 1
    · subst hl
      rw [hierScan, if_pos h3]
    · rw [hierScan, if_neg (not_lt.mpr (h4 (p + 1) (by omega) (by omega)))]
      exact ih (by omega) (fun lvl2 ha hb => h4 lvl2 ha (by omega))

/-- **C3** (hierarchical class masking): at inference with `hier_info`,
`YOLOOutputV3.hybrid_forward` returns the pair
`(detections, detections_masked)`; for every box the masked class-score
vector is the original score vector multiplied by a 0/1 mask with at most
one nonzero entry; scanning levels from the deepest down to 1, the first
level whose masked maximum exceeds 0.3 contributes its argmax as the single
kept class, and when no level exceeds 0.3 all masked scores are zero. -/
theorem claim_C3_hier_masking (levels leafs : List ℕ) (scores : List ℚ)
    (hlv : levels.length = scores.length) (hlf : leafs.length = scores.length)
    (hne : scores ≠ []) :
    (∃ mask : List ℚ, mask.length = scores.length ∧
      (∀ m ∈ mask, m = 0 ∨ m = 1) ∧
      mask.countP (fun m => decide (m ≠ 0)) ≤ 1 ∧
      hierMaskScores levels leafs scores = List.zipWith (· * ·) mask scores) ∧
    ((∀ lvl, 1 ≤ lvl → lvl ≤ maxLevel levels →
        npMax (maskedScores levels leafs lvl scores) ≤ 3/10) →
      hierMaskScores levels leafs scores = scores.map (fun _ => 0)) ∧
    (∀ lvl, 1 ≤ lvl → lvl ≤ maxLevel levels →
      3/10 < npMax (maskedScores levels leafs lvl scores) →
      (∀ lvl2, lvl < lvl2 → lvl2 ≤ maxLevel levels →
        npMax (maskedScores levels leafs lvl2 scores) ≤ 3/10) →
      hierMaskScores levels leafs scores =
        scores.mapIdx (fun j s =>
          if j = npArgmax (maskedScores levels leafs lvl scores) then s else 0)) ∧
    (∀ dets : List HierDet,
      yoloOutputHier (some (levels, leafs)) dets =
        (dets, some (dets.map (fun d => ⟨d.bbox, hierMaskScores levels leafs d.scores⟩)))) := by
  refine ⟨?_, ?_, ?_, ?_⟩
  · cases hscan : hierScan levels leafs scores (maxLevel levels) with
    | none =>
      refine ⟨List.replicate scores.length 0, List.length_replicate _ _, ?_, ?_, ?_⟩
      · intro m hm
        left
        exact List.eq_of_mem_replicate hm
      · rw [countP_replicate_zero]
        norm_num
      · rw [zipWith_mul_replicate_zero]
        simp only [hierMaskScores, hscan]
    | some ind =>
      refine ⟨onehotQ scores.length ind, onehotQ_length _ _, onehotQ_mem _ _,
        onehotQ_countP _ _, ?_⟩
      rw [zipWith_mul_onehotQ]
      simp only [hierMaskScores, hscan]
  · intro h
    simp only [hierMaskScores, hierScan_none levels leafs scores _ h]
  · intro lvl h1 h2 h3 h4
    simp only [hierMaskScores, hierScan_some levels leafs scores _ lvl h1 h2 h3 h4]
  · intro dets
    rfl

/-- A closed-form instance of C3: two classes with levels `[1, 2]` and
leaf flags `[1, 0]`; level 2 masks both classes in, its maximum `1/2`
exceeds `0.3`, and its argmax (class 0) is the single kept class. -/
theorem claim_C3_hier_masking_witness :
    hierMaskScores [1, 2] [1, 0] [1/2, 2/5] = [1/2, 0] ∧
    yoloOutputHier (some ([1, 2], [1, 0])) [⟨[9, 9, 9, 9], [1/2, 2/5]⟩] =
      ([⟨[9, 9, 9, 9], [1/2, 2/5]⟩], some [⟨[9, 9, 9, 9], [1/2, 0]⟩]) := by
  have hval : maskedScores [1, 2] [1, 0] 2 [1/2, 2/5] = [1/2, 2/5] := by
    norm_num [maskedScores, hierMask, leafMask, levelMask]
  have hmax : npMax [(1 : ℚ)/2, 2/5] = 1/2 := by
    rw [npMax, List.foldl_cons, List.foldl_nil, max_eq_left (by norm_num)]
  have harg : npArgmax [(1 : ℚ)/2, 2/5] = 0 := by
    rw [npArgmax, hmax]
    norm_num [List.findIdx_cons]
  have h := claim_C3_hier_masking [1, 2] [1, 0] [1/2, 2/5] (by rfl) (by rfl) (by simp)
  have h3 := h.2.2.1 2 (by norm_num) (by decide)
    (by rw [hval, hmax]; norm_num)
    (by intro lvl2 ha hb; rw [show maxLevel [1, 2] = 2 by decide] at hb; omega)
  rw [hval, harg] at h3
  have h1 : hierMaskScores [1, 2] [1, 0] [1/2, 2/5] = [1/2, 0] := by
    rw [h3]
    norm_num [List.mapIdx_cons]
  refine ⟨h1, ?_⟩
  rw [h.2.2.2 [⟨[9, 9, 9, 9], [1/2, 2/5]⟩]]
  simp only [List.map_cons, List.map_nil, h1]

/-! ## The `detect` driver — src/detect_yolo3.py lines 92-146

The network output for one sample is a list of raw detection rows
`(id, score, box)`; `detect` clips each box to `[0, data_shape]`
(`bboxes.clip(0, batch[0].shape[2])`, line 118), keeps the rows whose class
id is `>= 0` (`valid_pred`, line 129), normalises the box by the data shape
(line 130) and truncates the id to an integer (`astype(int)`, line 131),
then records `[id_, score_] + list(box_)` under the sample's file path
whenever `score_ > detection_threshold` (lines 134-139). -/

structure RawDet where
  id : ℚ
  score : ℚ
  box : List ℚ

/-- `bboxes.clip(0, S)` elementwise. -/
def clipBox (S : ℚ) (box : List ℚ) : List ℚ :=
  box.map (fun c => min S (max 0 c))

/-- The per-sample pipeline of `detect`: clip, filter `id >= 0`, then for
each row with `score > t` build the 6-entry record with the box divided by
the data shape `S`. -/
def processSample (S t : ℚ) (dets : List RawDet) : List (List ℚ) :=
  ((dets.map (fun d => RawDet.mk d.id d.score (clipBox S d.box))).filter
      (fun d => decide (0 ≤ d.id))).filterMap
    (fun d => if t < d.score then
      some (((⌊d.id⌋ : ℤ) : ℚ) :: d.score :: d.box.map (fun c => c / S)) else none)

/-- `boxes[file].append(...)` or `boxes[file] = [...]` (lines 136-139). -/
def addBox (boxes : List (String × List (List ℚ))) (file : String) (row : List ℚ) :
    List (String × List (List ℚ)) :=
  if boxes.any (fun p => decide (p.1 = file)) then
    boxes.map (fun p => if p.1 = file then (p.1, p.2 ++ [row]) else p)
  else boxes ++ [(file, [row])]

/-- Embedding of `detect`: fold the per-sample records into the `boxes`
dict, keyed by `dataset.sample_path(sidx)`. -/
def detect (S t : ℚ) (samples : List (String × List RawDet)) :
    List (String × List (List ℚ)) :=
  samples.foldl (fun boxes sample =>
    (processSample S t sample.2).foldl (fun bs row => addBox bs sample.1 row) boxes) []

/-- The invariant carried through the folds of `detect`: every key holds a
nonempty list of rows, each produced by `processSample` on a sample with
that file path. -/
def DetectInv (S t : ℚ) (samples : List (String × List RawDet))
    (boxes : List (String × List (List ℚ))) : Prop :=
  ∀ p ∈ boxes, p.2 ≠ [] ∧ ∀ row ∈ p.2,
    ∃ dets, (p.1, dets) ∈ samples ∧ row ∈ processSample S t dets

lemma processSample_mem {S t : ℚ} {dets : List RawDet} {row : List ℚ}
    (h : row ∈ processSample S t dets) :
    ∃ d ∈ dets, 0 ≤ d.id ∧ t < d.score ∧
      row = ((⌊d.id⌋ : ℤ) : ℚ) :: d.score :: (clipBox S d.box).map (fun c => c / S) := by
  unfold processSample at h
  rw [List.mem_filterMap] at h
  obtain ⟨d', hd', hrow⟩ := h
  rw [List.mem_filter] at hd'
  obtain ⟨hmem, hid⟩ := hd'
  rw [List.mem_map] at hmem
  obtain ⟨d, hd, rfl⟩ := hmem
  split_ifs at hrow with hts
  simp only [Option.some.injEq] at hrow
  exact ⟨d, hd, by simpa using hid, hts, hrow.symm⟩

lemma addBox_inv {S t : ℚ} {samples : List (String × List RawDet)}
    {boxes : List (String × List (List ℚ))} {file : String} {row : List ℚ}
    (h : DetectInv S t samples boxes)
    (hrow : ∃ dets, (file, dets) ∈ samples ∧ row ∈ processSample S t dets) :
    DetectInv S t samples (addBox boxes file row) := by
  unfold addBox
  split_ifs with hany
  · intro p hp
    rw [List.mem_map] at hp
    obtain ⟨q, hq, rfl⟩ := hp
    by_cases hqf : q.1 = file
    · rw [if_pos hqf]
      refine ⟨by simp, ?_⟩
      intro r hr
      rw [List.mem_append] at hr
      rcases hr with hr | hr
      · exact (h q hq).2 r hr
      · rw [List.mem_singleton] at hr
        subst hr
        rw [hqf]
        exact hrow
    · rw [if_neg hqf]
      exact h q hq
  · intro p hp
    rw [List.mem_append] at hp
    rcases hp with hp | hp
    · exact h p hp
    · rw [List.mem_singleton] at hp
      subst hp
      refine ⟨by simp, ?_⟩
      intro r hr
      rw [List.mem_singleton] at hr
      subst hr
      exact hrow

lemma foldl_addBox_inv {S t : ℚ} {samples : List (String × List RawDet)}
    {file : String} (dets : List RawDet) (hfile : (file, dets) ∈ samples) :
    ∀ (rows : List (List ℚ)), (∀ r ∈ rows, r ∈ processSample S t dets) →
    ∀ boxes, DetectInv S t samples boxes →
      DetectInv S t samples (rows.foldl (fun bs row => addBox bs file row) boxes) := by
  intro rows
  induction rows with
  | nil =>
    intro _ boxes hb
    exact hb
  | cons r rs ih =>
    intro hrs boxes hb
    rw [List.foldl_cons]
    exact ih (fun x hx => hrs x (List.mem_cons_of_mem _ hx)) _
      (addBox_inv hb ⟨dets, hfile, hrs r (List.mem_cons_self _ _)⟩)

lemma detect_foldl_inv {S t : ℚ} (samples : List (String × List RawDet)) :
    ∀ (l : List (String × List RawDet)), (∀ x ∈ l, x ∈ samples) →
    ∀ boxes, DetectInv S t samples boxes →
      DetectInv S t samples (l.foldl (fun bs sample =>
        (processSample S t sample.2).foldl (fun b row => addBox b sample.1 row) bs) boxes) := by
  intro l
  induction l with
  | nil =>
    intro _ boxes hb
    exact hb
  | cons s ss ih =>
    intro hl boxes hb
    rw [List.foldl_cons]
    apply ih (fun x hx => hl x (List.mem_cons_of_mem _ hx))
    exact foldl_addBox_inv s.2 (hl s (List.mem_cons_self _ _)) _
      (fun r hr => hr) boxes hb

/-- **C6** (the detection driver): every file path recorded by `detect`
carries a nonempty list of 6-element detections `[class_id, score, x1, y1,
x2, y2]` in which the class id is `>= 0` (negative padded ids filtered
out), the score is strictly greater than the detection threshold, and the
box coordinates are the clipped coordinates divided by the input data
shape; each recorded row comes from a raw detection of a sample with that
file path. -/
theorem claim_C6_detect (S t : ℚ) (samples : List (String × List RawDet))
    (hbox : ∀ p ∈ samples, ∀ d ∈ p.2, d.box.length = 4) :
    ∀ p ∈ detect S t samples, p.2 ≠ [] ∧ ∀ row ∈ p.2,
      row.length = 6 ∧ 0 ≤ row.getD 0 0 ∧ t < row.getD 1 0 ∧
      ∃ dets, (p.1, dets) ∈ samples ∧ ∃ d ∈ dets, 0 ≤ d.id ∧ t < d.score ∧
        row = ((⌊d.id⌋ : ℤ) : ℚ) :: d.score :: (clipBox S d.box).map (fun c => c / S) := by
  have hinv : DetectInv S t samples (detect S t samples) :=
    detect_foldl_inv samples samples (fun x hx => hx) [] (by intro p hp; simp at hp)
  intro p hp
  obtain ⟨hne, hrows⟩ := hinv p hp
  refine ⟨hne, ?_⟩
  intro row hrow
  obtain ⟨dets, hdets, hmem⟩ := hrows row hrow
  obtain ⟨d, hd, hid, hts, heq⟩ := processSample_mem hmem
  have hlen : (clipBox S d.box).length = 4 := by
    rw [clipBox, List.length_map]
    exact hbox (p.1, dets) hdets d hd
  refine ⟨?_, ?_, ?_, dets, hdets, d, hd, hid, hts, heq⟩
  · rw [heq]
    simp [hlen]
  · rw [heq]
    simp only [List.getD_cons_zero]
    exact_mod_cast Int.floor_nonneg.mpr hid
  · rw [heq]
    simp only [List.getD_cons_succ, List.getD_cons_zero]
    exact hts

/-- A closed-form instance of C6: one sample with a valid detection
(class 1, score 1/2) and a padded one (class -1, filtered out); the
recorded row is 6 entries long, has nonnegative id, score above the
threshold, and its box divided by the data shape 100. -/
theorem claim_C6_detect_witness :
    (([[1, 1/2, 1/10, 1/5, 3/10, 2/5]] : List (List ℚ)) ≠ []) ∧
    ([(1 : ℚ), 1/2, 1/10, 1/5, 3/10, 2/5].length = 6) ∧
    (0 ≤ ([(1 : ℚ), 1/2, 1/10, 1/5, 3/10, 2/5].getD 0 0)) ∧
    ((0 : ℚ) < [(1 : ℚ), 1/2, 1/10, 1/5, 3/10, 2/5].getD 1 0) := by
  have hdet : detect 100 0 [("a", [⟨1, 1/2, [10, 20, 30, 40]⟩, ⟨-1, 9/10, [0, 0, 1, 1]⟩])] =
      [("a", [[1, 1/2, 1/10, 1/5, 3/10, 2/5]])] := by
    norm_num [detect, processSample, clipBox, addBox, List.filter, List.filterMap]
  have hb : ∀ p ∈ [("a", [(⟨1, 1/2, [10, 20, 30, 40]⟩ : RawDet), ⟨-1, 9/10, [0, 0, 1, 1]⟩])],
      ∀ d ∈ p.2, d.box.length = 4 := by
    intro p hp d hd
    rw [List.mem_singleton] at hp
    subst hp
    simp only [List.mem_cons, List.mem_singleton] at hd
    rcases hd with h | h | h
    · subst h; rfl
    · subst h; rfl
    · simp at h
  have h := claim_C6_detect 100 0
    [("a", [⟨1, 1/2, [10, 20, 30, 40]⟩, ⟨-1, 9/10, [0, 0, 1, 1]⟩])] hb
    ("a", [[1, 1/2, 1/10, 1/5, 3/10, 2/5]]) (by rw [hdet]; exact List.mem_singleton.mpr rfl)
  obtain ⟨h1, h2⟩ := h
  obtain ⟨hl, hg0, hg1, _⟩ := h2 [1, 1/2, 1/10, 1/5, 3/10, 2/5] (List.mem_singleton.mpr rfl)
  exact ⟨h1, hl, hg0, hg1⟩
